import Mathlib

/-!
Shallow embedding of `src/lib/protocol/index.js` (class `TeraProtocol`): a
versioned binary-protocol message registry and codec dispatcher.

Modelling conventions:
- JS `Map` becomes an insertion-ordered association list (`alGet` / `alSet`).
- Node `Buffer` / `DataView` contents become `List Nat` (one `Nat` per byte).
- Machine/script numbers become `Nat`; where JS truthiness of a number matters
  (`0`, `undefined` and `-Infinity` are falsy or absent), the model uses
  `Option Nat` plus an explicit truthiness test (`optTruthy`).
- Throwing methods return `Except`; a thrown error is modelled as the
  `Except.error` case (the claims under study only depend on whether a call
  throws and on the state after a successful call).
- External collaborators (the structural `.def` parser, the definition
  compiler, module evaluation of `.js` sources) are parameters: they are out
  of scope per the spec and are passed in as functions. A `none` result models
  a null/failed result of the collaborator.
- `Buffer.allocUnsafe` garbage is modelled by explicit initial-content
  parameters; the uninitialised tail of `write`'s result when the writer
  returns a length larger than the scratch buffer is not modelled (theorems
  assume the writer stays within the 65536-byte scratch region).
-/

set_option linter.unusedVariables false

namespace TeraProto

/-- Lookup in an insertion-ordered association list, as JS `Map.get`. -/
def alGet {κ β : Type} [BEq κ] : List (κ × β) → κ → Option β
  | [], _ => none
  | p :: rest, k => if p.1 == k then some p.2 else alGet rest k

/-- Update in an insertion-ordered association list, as JS `Map.set`:
replace in place when the key is present, append otherwise. -/
def alSet {κ β : Type} [BEq κ] : List (κ × β) → κ → β → List (κ × β)
  | [], k, v => [(k, v)]
  | p :: rest, k, v => if p.1 == k then (k, v) :: rest else p :: alSet rest k v

/-- Maximum of a list of naturals (`Math.max(...keys)` for a nonempty list of
non-negative keys; the empty case is guarded separately by the callers). -/
def listMax (l : List Nat) : Nat := l.foldr max 0

/-- JS truthiness of an optional number: `undefined` and `0` are falsy. -/
def optTruthy : Option Nat → Bool
  | some v => v != 0
  | none => false

/-- `DataView.setUint16(off, v, true)`: store `v` as little-endian unsigned
16-bit at byte offsets `off` and `off + 1` (JS coerces `v` modulo 2^16;
the low byte is `v % 256`, the high byte `v / 256 % 256`). -/
def setUint16LE (buf : List Nat) (off v : Nat) : List Nat :=
  (buf.set off (v % 256)).set (off + 1) (v / 256 % 256)

/-- Node `src.copy(dst, 0, 0, src.length)`: overwrite the first
`min src.length dst.length` bytes of `dst` with those of `src`. -/
def bufCopy (src dst : List Nat) : List Nat :=
  src.take dst.length ++ dst.drop (min src.length dst.length)

/-- Split a character list at every occurrence of `sep`
(the single-separator case of `String.prototype.split`). -/
def splitOnChar (sep : Char) : List Char → List (List Char)
  | [] => [[]]
  | c :: cs =>
    let rest := splitOnChar sep cs
    if c == sep then [] :: rest
    else
      match rest with
      | r :: rs => (c :: r) :: rs
      | [] => [[c]]

/-- Node `path.basename` for the slash-free or slash-separated names that
occur as bundle keys and directory entries: the last `/`-separated segment. -/
def basenameChars (cs : List Char) : List Char :=
  (splitOnChar '/' cs).getLastD []

/-- JS `\w`: ASCII letters, digits and underscore. -/
def isWordChar (c : Char) : Bool := c.isAlphanum || c == '_'

/-- Nonempty run of `\w` characters. -/
def isWordSeg (cs : List Char) : Bool := cs ≠ [] && cs.all isWordChar

/-- Nonempty run of decimal digits (`\d+`). -/
def isDigitSeg (cs : List Char) : Bool := cs ≠ [] && cs.all Char.isDigit

/-- `parseInt(digits, 10)` on a digit string. -/
def digitsToNat (cs : List Char) : Nat :=
  cs.foldl (fun n c => n * 10 + (c.toNat - 48)) 0

/-- Source kind of a definition file: `.def` or `.js`. -/
inductive FileKind where
  | defFile
  | jsFile
deriving DecidableEq

/-- Result of `parseDefinitionFilename`: the groups of
`^(\w+)\.(\d+)(\.(\w+))?\.(def|js)$`. -/
structure ParsedName where
  name : String
  version : Nat
  platform : Option String
  type : FileKind
deriving DecidableEq

/-- `parseDefinitionFilename(file)`: match the basename against
`^(\w+)\.(\d+)(\.(\w+))?\.(def|js)$` and extract name, version, optional
platform and extension; `none` on a non-matching name (the function then only
logs and returns null). Because `\w` and `\d` never match `.`, the regex is
equivalent to splitting the basename at `.` into exactly 3 or 4 segments of
the required character classes. -/
def parseDefinitionFilename (file : String) : Option ParsedName :=
  match splitOnChar '.' (basenameChars file.toList) with
  | [name, version, ext] =>
    if isWordSeg name && isDigitSeg version && (ext == "def".toList || ext == "js".toList) then
      some ⟨String.mk name, digitsToNat version, none,
            if ext == "js".toList then .jsFile else .defFile⟩
    else none
  | [name, version, platform, ext] =>
    if isWordSeg name && isDigitSeg version && isWordSeg platform
        && (ext == "def".toList || ext == "js".toList) then
      some ⟨String.mk name, digitsToNat version, some (String.mk platform),
            if ext == "js".toList then .jsFile else .defFile⟩
    else none
  | _ => none

/-- DeprecationEntry: one record of `data.deprecated[name][version]`. All
fields optional in the source JSON; `readable` is consumed as `!!data.readable`
so it is modelled post-coercion as a `Bool` (absent ⇒ `false`). -/
structure DeprecationEntry where
  min : Option Nat
  max : Option Nat
  readable : Bool
deriving DecidableEq

/-- Compiled definition: the `{reader, writer, cloner}` routines plus the
deprecation flags assigned at registration. The reader consumes the bytes of
the length-limited view handed to it; the writer consumes the 65536-byte write
scratch contents and the value, and returns the end offset of the payload it
wrote together with the updated scratch contents. -/
structure CompiledDef (α : Type) where
  reader : List Nat → α
  writer : List Nat → α → Nat × List Nat
  cloner : α → α
  readable : Bool
  writeable : Bool

/-- Input to `addDefinition`: either an object that already has function-typed
`reader`/`writer`/`cloner` members (the `typeof` checks pass), or a structural
definition that still needs the external compiler. -/
inductive DefInput (α σ : Type) where
  | compiled (d : CompiledDef α)
  | structural (s : σ)

/-- Bidirectional opcode↔name map, externally owned (`protocolMap.name` /
`protocolMap.code`). -/
structure ProtocolMap where
  byName : String → Option Nat
  byCode : Nat → Option String

/-- Default bundle (`data.json`): `protocol` maps filenames to (already
decoded) definition sources, `deprecated` is the deprecation table. -/
structure Bundle (τ : Type) where
  protocol : List (String × τ)
  deprecated : String → Nat → Option DeprecationEntry

/-- Message identifier: a symbolic name or a numeric opcode (the two
non-TypeError arms of the `typeof identifier` switch). -/
inductive Identifier where
  | byName (name : String)
  | byCode (code : Nat)

/-- Requested definition version: the `'*'` wildcard or a concrete number. -/
inductive VersionRequest where
  | wildcard
  | exact (v : Nat)

/-- Errors thrown by resolution and codec invocation. `noReadView` models
`parse` handing `undefined` to the reader when no precomputed view exists for
the buffer length. -/
inductive ProtoError where
  | codeNotKnown (name : String)
  | mappingNotFound (code : Nat)
  | outdated (name : String) (code : Nat) (version : Nat)
  | notFound (name : String) (code : Nat)
  | deprecatedRead (name : String) (code : Nat) (version : Nat)
  | deprecatedWrite (name : String) (code : Nat) (version : Nat)
  | noReadView (length : Nat)
deriving DecidableEq

/-- Error aborting `loadDefaultBundle`: the `TypeError` raised by `def.name`
when `parseDefinitionFilename` returned null for a bundle entry. -/
inductive LoadError where
  | nullParsedName
deriving DecidableEq

/-- Engine state: the fields assigned by the `TeraProtocol` constructor and by
the loaders. `readViews[i]` is the precomputed `DataView` of length `i` over
the read scratch buffer, identified here by its length. Fields that the
constructor leaves undefined until `loadDefaultBundle` runs
(`deprecationData`, `lowestDefaultDefVersions`, `defaultDefinitions`) are
modelled as empty lookups. -/
structure TeraState (α : Type) where
  region : String
  majorPatchVersion : Nat
  minorPatchVersion : Nat
  platform : String
  protocolMap : ProtocolMap
  messages : List (String × List (Nat × CompiledDef α))
  readBuffer : List Nat
  readViews : List Nat
  writeBuffer : List Nat
  deprecationData : String → Nat → Option DeprecationEntry
  lowestDefaultDefVersions : String → Option Nat
  defaultDefinitions : List String
  loaded : Bool

/-- `PLATFORMS` constant. -/
def PLATFORMS : List String := ["pc", "console", "classic"]

/-- `TeraProtocol` constructor. `readInit`/`writeInit` supply the
`Buffer.allocUnsafe` garbage contents. `none` models the thrown
`Error('Invalid platform!')`. The view loop runs `for i in [0, 0x10000]`
inclusive, so views exist for every length `0..65536`. -/
def mkTeraProtocol (α : Type) (region : String) (majorPatchVersion minorPatchVersion : Nat)
    (protocolMap : ProtocolMap) (platform : String)
    (readInit writeInit : Nat → Nat) : Option (TeraState α) :=
  if PLATFORMS.contains platform then
    some {
      region := region
      majorPatchVersion := majorPatchVersion
      minorPatchVersion := minorPatchVersion
      platform := platform
      protocolMap := protocolMap
      messages := []
      readBuffer := (List.range 65536).map readInit
      readViews := List.range 65537
      writeBuffer := (List.range 65536).map writeInit
      deprecationData := fun _ _ => none
      lowestDefaultDefVersions := fun _ => none
      defaultDefinitions := []
      loaded := false }
  else none

/-- `_assignDeprecationFlags(name, version, definition)`. Note the source
tests `!data.min` / `!data.max` (truthiness, so a `0` bound counts as absent)
and combines the two bound tests with `&&`. -/
def assignDeprecationFlags {α : Type} (st : TeraState α) (name : String) (version : Nat)
    (definition : CompiledDef α) : CompiledDef α :=
  let definition := { definition with writeable := true, readable := true }
  match st.deprecationData name version with
  | none => definition
  | some data =>
    if (!optTruthy data.min || data.min.getD 0 > st.majorPatchVersion)
        && (!optTruthy data.max || data.max.getD 0 < st.majorPatchVersion) then
      { definition with writeable := false, readable := data.readable }
    else definition

/-- `addDefinition(name, version, definition, overwrite)`: compile when the
routines are missing (on failure log and drop, leaving the state unchanged),
ensure the per-name map exists, then insert obeying the overwrite rule
`overwrite || !messages.get(name).get(version)`. -/
def addDefinition {α σ : Type} (compileF : σ → Option (CompiledDef α)) (st : TeraState α)
    (name : String) (version : Nat) (definition : DefInput α σ) (overwrite : Bool) :
    TeraState α :=
  let compiledOpt : Option (CompiledDef α) :=
    match definition with
    | .compiled d => some d
    | .structural s => compileF s
  match compiledOpt with
  | none => st
  | some d =>
    let messages1 :=
      if (alGet st.messages name).isNone then alSet st.messages name [] else st.messages
    let versions := (alGet messages1 name).getD []
    if overwrite || (alGet versions version).isNone then
      let versions2 := alSet versions version (assignDeprecationFlags st name version d)
      { st with messages := alSet messages1 name versions2 }
    else
      { st with messages := messages1 }

/-- Shared tail of both loaders (lines 145-148 and 167-170): evaluate the
source (`requireStr`/`require` for `.js`, `defParser` for `.def`), and if the
result is non-null and the platform tag is absent or equals the engine's
platform, register it with `overwrite = !!parsedName.platform`. -/
def registerParsedDefinition {α σ τ : Type} (compileF : σ → Option (CompiledDef α))
    (jsLoadF defLoadF : String → τ → Option (DefInput α σ))
    (st : TeraState α) (parsedName : ParsedName) (file : String × τ) : TeraState α :=
  let definition :=
    if parsedName.type == FileKind.jsFile then jsLoadF file.1 file.2 else defLoadF file.1 file.2
  match definition with
  | some defn =>
    if parsedName.platform.isNone || parsedName.platform == some st.platform then
      addDefinition compileF st parsedName.name parsedName.version defn parsedName.platform.isSome
    else st
  | none => st

/-- One step of the `lowestDefaultDefVersions` forEach: the source tests the
current entry with `if (this.lowestDefaultDefVersions[def.name])`, so an
accumulated `0` is treated like an absent entry and replaced instead of
min-combined. -/
def lowestStep (acc : String → Option Nat) (d : ParsedName) : String → Option Nat :=
  match acc d.name with
  | some v =>
    if v != 0 then fun n => if n == d.name then some (min v d.version) else acc n
    else fun n => if n == d.name then some d.version else acc n
  | none => fun n => if n == d.name then some d.version else acc n

/-- The forEach of lines 127-132 over the parsed bundle filenames: it
dereferences `def.name`, so a null parse result raises a TypeError that
aborts the bundle load. -/
def computeLowest : List (Option ParsedName) → (String → Option Nat) →
    Except LoadError (String → Option Nat)
  | [], acc => Except.ok acc
  | none :: _, _ => Except.error LoadError.nullParsedName
  | some d :: rest, acc => computeLowest rest (lowestStep acc d)

/-- The `for (const file in data.protocol)` registration loop of lines
141-149. It dereferences `parsedName.type`, so a null parse result raises a
TypeError (unreachable in `loadDefaultBundle` because the forEach above
already threw on the same entry). -/
def loadBundleEntries {α σ τ : Type} (compileF : σ → Option (CompiledDef α))
    (requireStrF defParserF : String → τ → Option (DefInput α σ)) :
    TeraState α → List (String × τ) → Except LoadError (TeraState α)
  | s, [] => Except.ok s
  | s, p :: rest =>
    match parseDefinitionFilename p.1 with
    | none => Except.error LoadError.nullParsedName
    | some parsedName =>
      loadBundleEntries compileF requireStrF defParserF
        (registerParsedDefinition compileF requireStrF defParserF s parsedName p) rest

/-- `loadDefaultBundle(data)`: compute `lowestDefaultDefVersions`, store the
deprecation table and the default-definition set, clear the registry, then
register every entry. A bundle entry whose filename fails to parse raises a
TypeError (there is no null guard in this loader). -/
def loadDefaultBundle {α σ τ : Type} (compileF : σ → Option (CompiledDef α))
    (requireStrF defParserF : String → τ → Option (DefInput α σ))
    (st : TeraState α) (data : Bundle τ) : Except LoadError (TeraState α) :=
  let defaultDefData := data.protocol.map (fun p => parseDefinitionFilename p.1)
  match computeLowest defaultDefData (fun _ => none) with
  | Except.error e => Except.error e
  | Except.ok lowest =>
    let st1 : TeraState α := { st with
      lowestDefaultDefVersions := lowest
      deprecationData := data.deprecated
      defaultDefinitions := defaultDefData.filterMap
        (fun pd => pd.map (fun d => d.name ++ "." ++ toString d.version))
      messages := [] }
    match loadBundleEntries compileF requireStrF defParserF st1 data.protocol with
    | Except.error e => Except.error e
    | Except.ok st2 => Except.ok { st2 with loaded := true }

/-- One iteration of the `loadCustomDefinitions` loop: skip unparsable names;
skip-and-log a stale custom definition (`version !== 0 && lowest && version <
lowest`, both occurrences of `lowest` read through JS truthiness); otherwise
evaluate and register. -/
def loadCustomStep {α σ τ : Type} (compileF : σ → Option (CompiledDef α))
    (requireF defParserF : String → τ → Option (DefInput α σ))
    (st : TeraState α) (file : String × τ) : TeraState α :=
  match parseDefinitionFilename file.1 with
  | none => st
  | some parsedName =>
    if parsedName.version != 0 && optTruthy (st.lowestDefaultDefVersions parsedName.name)
        && decide (parsedName.version < (st.lowestDefaultDefVersions parsedName.name).getD 0) then
      st
    else
      registerParsedDefinition compileF requireF defParserF st parsedName file

/-- `loadCustomDefinitions(defPath)` over the directory listing (filename and
file contents pairs). Never throws. -/
def loadCustomDefinitions {α σ τ : Type} (compileF : σ → Option (CompiledDef α))
    (requireF defParserF : String → τ → Option (DefInput α σ))
    (st : TeraState α) (defFiles : List (String × τ)) : TeraState α :=
  defFiles.foldl (loadCustomStep compileF requireF defParserF) st

/-- Successful resolution result `{name, code, version, latest_version,
definition}`. -/
structure Resolved (α : Type) where
  name : String
  code : Nat
  version : Nat
  latest_version : Nat
  definition : CompiledDef α

/-- Lines 215-231 of `resolveIdentifier`: definition lookup and the
Outdated/NotFound classification. `latestOpt` models `Math.max(...keys)`
(`none` both for an absent versions table and for the `-Infinity` of an empty
one: in the guard `latest_version && version && version < latest_version` the
comparison against `-Infinity` is false anyway, so the outcomes coincide);
number truthiness makes a `0` value falsy, hence the `!= 0` tests. -/
def resolveDefinition {α : Type} (messages : List (String × List (Nat × CompiledDef α)))
    (name : String) (code : Nat) (definitionVersion : VersionRequest) :
    Except ProtoError (Resolved α) :=
  match alGet messages name with
  | some versions =>
    let latestOpt : Option Nat :=
      if versions.isEmpty then none else some (listMax (versions.map Prod.fst))
    let versionOpt : Option Nat :=
      match definitionVersion with
      | .wildcard => latestOpt
      | .exact v => some v
    let defOpt : Option (CompiledDef α) :=
      match versionOpt with
      | some v => alGet versions v
      | none => none
    match defOpt with
    | some definition =>
      Except.ok ⟨name, code, versionOpt.getD 0, latestOpt.getD 0, definition⟩
    | none =>
      if optTruthy latestOpt && optTruthy versionOpt
          && decide (versionOpt.getD 0 < latestOpt.getD 0) then
        Except.error (.outdated name code (versionOpt.getD 0))
      else
        Except.error (.notFound name code)
  | none => Except.error (.notFound name code)

/-- `resolveIdentifier(identifier, definitionVersion = '*')`. -/
def resolveIdentifier {α : Type} (st : TeraState α) (identifier : Identifier)
    (definitionVersion : VersionRequest) : Except ProtoError (Resolved α) :=
  match identifier with
  | .byName name =>
    match st.protocolMap.byName name with
    | none => Except.error (.codeNotKnown name)
    | some code => resolveDefinition st.messages name code definitionVersion
  | .byCode code =>
    match st.protocolMap.byCode code with
    | none => Except.error (.mappingNotFound code)
    | some name => resolveDefinition st.messages name code definitionVersion

/-- `parse(resolvedIdentifier, buffer)`: gate on `readable`, copy the buffer
into the read scratch region, and run the reader on the precomputed view of
length `buffer.length` (its contents are the first `buffer.length` bytes of
the scratch region). A missing view (buffer longer than 65536) hands
`undefined` to the reader, modelled as `noReadView`. -/
def parse {α : Type} (st : TeraState α) (resolvedIdentifier : Resolved α)
    (buffer : List Nat) : Except ProtoError (α × TeraState α) :=
  if resolvedIdentifier.definition.readable = false then
    Except.error (.deprecatedRead resolvedIdentifier.name resolvedIdentifier.code
      resolvedIdentifier.version)
  else
    let readBuffer := bufCopy buffer st.readBuffer
    match st.readViews[buffer.length]? with
    | some viewLen =>
      Except.ok (resolvedIdentifier.definition.reader (readBuffer.take viewLen),
        { st with readBuffer := readBuffer })
    | none => Except.error (.noReadView buffer.length)

/-- `write(resolvedIdentifier, data)`: gate on `writeable`, run the writer on
the write scratch region, stamp the little-endian 16-bit total length at
offset 0 and opcode at offset 2, and return a detached copy of bytes
`[0, length)` of the scratch region. -/
def write {α : Type} (st : TeraState α) (resolvedIdentifier : Resolved α) (data : α) :
    Except ProtoError (List Nat × TeraState α) :=
  if resolvedIdentifier.definition.writeable = false then
    Except.error (.deprecatedWrite resolvedIdentifier.name resolvedIdentifier.code
      resolvedIdentifier.version)
  else
    let lengthBuf := resolvedIdentifier.definition.writer st.writeBuffer data
    let length := lengthBuf.1
    let writeBuffer := setUint16LE (setUint16LE lengthBuf.2 0 length) 2 resolvedIdentifier.code
    let result := writeBuffer.take length
    Except.ok (result, { st with writeBuffer := writeBuffer })

/-- `clone(resolvedIdentifier, data)`. -/
def clone {α : Type} (st : TeraState α) (resolvedIdentifier : Resolved α) (data : α) : α :=
  resolvedIdentifier.definition.cloner data

/-- Registry lookup helper: the definition currently registered for
`(name, version)`. -/
def lookupDefinition {α : Type} (st : TeraState α) (name : String) (version : Nat) :
    Option (CompiledDef α) :=
  (alGet st.messages name).bind (fun versions => alGet versions version)

/-- Versions carried by a list of parsed names for a given message name. -/
def versionsOf (l : List ParsedName) (n : String) : List Nat :=
  l.filterMap (fun d => if d.name == n then some d.version else none)

/-- Versions present in the bundle for a given name (the bundled defaults
whose minimum the spec calls `LowestDefaultVersion[name]`). -/
def bundledVersions {τ : Type} (data : Bundle τ) (n : String) : List Nat :=
  versionsOf (data.protocol.filterMap (fun p => parseDefinitionFilename p.1)) n

/-! ### Concrete fixtures used by witnesses and counterexamples -/

/-- Trivial compiled definition: the reader returns the first byte of its
view, the writer stores the value at payload offset 4 and reports end offset
5. -/
def wDef : CompiledDef Nat where
  reader := fun l => l.headD 0
  writer := fun b x => (5, b.set 4 x)
  cloner := fun x => x
  readable := true
  writeable := true

/-- Second distinct compiled definition (end offset 6). -/
def wDef2 : CompiledDef Nat where
  reader := fun l => l.headD 1
  writer := fun b x => (6, b.set 4 (x + 1))
  cloner := fun x => x
  readable := true
  writeable := true

/-- Protocol map knowing only `"A" ↔ 10`. -/
def pm0 : ProtocolMap where
  byName := fun n => if n == "A" then some 10 else none
  byCode := fun c => if c == 10 then some "A" else none

/-- All-zero 65536-byte scratch content. -/
def bufZ : List Nat := List.replicate 65536 0

/-- Base engine state for concrete checks. -/
def stBase : TeraState Nat where
  region := "eu"
  majorPatchVersion := 3
  minorPatchVersion := 1
  platform := "pc"
  protocolMap := pm0
  messages := []
  readBuffer := bufZ
  readViews := List.range 65537
  writeBuffer := bufZ
  deprecationData := fun _ _ => none
  lowestDefaultDefVersions := fun _ => none
  defaultDefinitions := []
  loaded := true

/-- State whose deprecation table holds `M.1 ↦ {min: 5, max: 10, readable}`
while the engine's major patch version is 3 (strictly below the interval). -/
def stC1 : TeraState Nat :=
  { stBase with deprecationData := fun n v =>
      if n == "M" && v == 1 then some ⟨some 5, some 10, true⟩ else none }

/-- State whose deprecation table holds `M.1 ↦ {min: 5, readable}` (no max)
with major patch version 3. -/
def stC1b : TeraState Nat :=
  { stBase with deprecationData := fun n v =>
      if n == "M" && v == 1 then some ⟨some 5, none, true⟩ else none }

/-- State with only version 5 of message `A` registered. -/
def stC3 : TeraState Nat :=
  { stBase with messages := [("A", [(5, wDef)])] }

/-- Compiler collaborator that always succeeds with `wDef`. -/
def compileW : Nat → Option (CompiledDef Nat) := fun _ => some wDef

/-- Compiler collaborator that always fails. -/
def compileFail : Nat → Option (CompiledDef Nat) := fun _ => none

/-- Source evaluator collaborator that always yields a precompiled `wDef`. -/
def extW : String → Nat → Option (DefInput Nat Nat) := fun _ _ => some (.compiled wDef)

/-- Bundle with one entry whose filename does not match the naming
convention. -/
def bundleBad : Bundle Nat where
  protocol := [("bad.txt", 0)]
  deprecated := fun _ _ => none

/-- Bundle with one well-formed entry `Foo.1.def`. -/
def bundleGood : Bundle Nat where
  protocol := [("Foo.1.def", 0)]
  deprecated := fun _ _ => none

/-- Bundle whose only version of `X` is 7. -/
def bundleX : Bundle Nat where
  protocol := [("X.7.def", 0)]
  deprecated := fun _ _ => none

/-- Resolved identifier whose definition is fully deprecated (neither
readable nor writeable). -/
def resUnread : Resolved Nat where
  name := "A"
  code := 10
  version := 1
  latest_version := 1
  definition := { wDef with readable := false, writeable := false }

/-- Resolved identifier over `wDef` for codec-invoker checks. -/
def resW : Resolved Nat where
  name := "A"
  code := 10
  version := 1
  latest_version := 1
  definition := wDef

/-- The state built by `mkTeraProtocol Nat "eu" 3 1 pm0 "pc" (fun _ => 0)
(fun _ => 0)`, spelled out. -/
def stMk : TeraState Nat where
  region := "eu"
  majorPatchVersion := 3
  minorPatchVersion := 1
  platform := "pc"
  protocolMap := pm0
  messages := []
  readBuffer := (List.range 65536).map (fun _ => 0)
  readViews := List.range 65537
  writeBuffer := (List.range 65536).map (fun _ => 0)
  deprecationData := fun _ _ => none
  lowestDefaultDefVersions := fun _ => none
  defaultDefinitions := []
  loaded := false

/-! ### Helper lemmas -/

theorem alGet_alSet_self {κ β : Type} [BEq κ] [LawfulBEq κ] (m : List (κ × β)) (k : κ) (v : β) :
    alGet (alSet m k v) k = some v := by
  induction m with
  | nil => simp [alGet, alSet]
  | cons p tl ih =>
    by_cases h : p.1 == k
    · simp [alGet, alSet, h]
    · simp only [alSet, h, Bool.false_eq_true, if_false, alGet, ih]

theorem alGet_alSet_ne {κ β : Type} [BEq κ] [LawfulBEq κ] (m : List (κ × β)) (k k' : κ) (v : β)
    (h : (k == k') = false) : alGet (alSet m k v) k' = alGet m k' := by
  induction m with
  | nil => simp [alGet, alSet, h]
  | cons p tl ih =>
    by_cases hp : p.1 == k
    · have hp' : p.1 = k := eq_of_beq hp
      simp [alGet, alSet, hp, hp', h]
    · simp only [alSet, hp, Bool.false_eq_true, if_false, alGet, ih]

theorem alGet_isSome_of_mem_keys {κ β : Type} [BEq κ] [LawfulBEq κ]
    (l : List (κ × β)) (k : κ) (h : k ∈ l.map Prod.fst) : (alGet l k).isSome := by
  induction l with
  | nil => simp at h
  | cons p tl ih =>
    by_cases hp : p.1 == k
    · simp [alGet, hp]
    · simp only [List.map_cons, List.mem_cons] at h
      rcases h with h | h
      · exact absurd h.symm (by simpa using hp)
      · simp only [alGet, hp, Bool.false_eq_true, if_false]
        exact ih h

theorem listMax_mem : ∀ {l : List Nat}, l ≠ [] → listMax l ∈ l := by
  intro l
  induction l with
  | nil => intro h; exact absurd rfl h
  | cons x xs ih =>
    intro _
    by_cases hxs : xs = []
    · subst hxs; simp [listMax]
    · have hmem := ih hxs
      simp only [listMax, List.foldr_cons] at hmem ⊢
      by_cases h : x ≤ xs.foldr max 0
      · rw [max_eq_right h]; exact List.mem_cons_of_mem x hmem
      · rw [max_eq_left (Nat.le_of_not_le h)]; exact List.mem_cons_self x xs

theorem le_listMax_of_mem {l : List Nat} {a : Nat} (h : a ∈ l) : a ≤ listMax l := by
  induction l with
  | nil => simp at h
  | cons x xs ih =>
    rcases List.mem_cons.mp h with h | h
    · subst h; simp only [listMax, List.foldr_cons]; exact le_max_left _ _
    · simp only [listMax, List.foldr_cons]
      exact le_trans (ih h) (le_max_right _ _)

theorem optLowerBound_iff (o : Option Nat) (mpv : Nat) :
    ((!optTruthy o || decide (o.getD 0 > mpv)) = true) ↔
      ∀ m, o = some m → m ≠ 0 → mpv < m := by
  cases o with
  | none => simp [optTruthy]
  | some m =>
    by_cases hm : m = 0
    · subst hm; simp [optTruthy]
    · simp [optTruthy, hm, GT.gt]

theorem optUpperBound_iff (o : Option Nat) (mpv : Nat) :
    ((!optTruthy o || decide (o.getD 0 < mpv)) = true) ↔
      ∀ m, o = some m → m ≠ 0 → m < mpv := by
  cases o with
  | none => simp [optTruthy]
  | some m =>
    by_cases hm : m = 0
    · subst hm; simp [optTruthy]
    · simp [optTruthy, hm]

theorem resolveDefinition_exact_outdated {α : Type}
    (messages : List (String × List (Nat × CompiledDef α))) (name : String) (code : Nat)
    (v : Nat) :
    resolveDefinition messages name code (.exact v) = Except.error (.outdated name code v) ↔
      ∃ versions, alGet messages name = some versions ∧ versions ≠ [] ∧
        alGet versions v = none ∧ v ≠ 0 ∧ v < listMax (versions.map Prod.fst) := by
  cases halg : alGet messages name with
  | none => simp [resolveDefinition, halg]
  | some versions =>
    by_cases hemp : versions.isEmpty
    · have hnil : versions = [] := List.isEmpty_iff.mp hemp
      subst hnil
      simp [resolveDefinition, halg, optTruthy, alGet]
    · have hemp2 : versions.isEmpty = false := by simpa using hemp
      have hne : versions ≠ [] := by simpa using hemp
      cases hdef : alGet versions v with
      | some d => simp [resolveDefinition, halg, hemp2, hdef]
      | none =>
        simp only [resolveDefinition, halg, hemp2, hdef, Bool.false_eq_true, if_false,
          Option.getD_some]
        by_cases hc : (optTruthy (some (listMax (versions.map Prod.fst)))
            && optTruthy (some v) && decide (v < listMax (versions.map Prod.fst))) = true
        · rw [if_pos hc]
          simp only [Bool.and_eq_true, optTruthy, bne_iff_ne, ne_eq,
            decide_eq_true_eq] at hc
          exact ⟨fun _ => ⟨versions, rfl, hne, hdef, hc.1.2, hc.2⟩, fun _ => rfl⟩
        · rw [if_neg hc]
          constructor
          · intro h; simp at h
          · rintro ⟨versions2, hvs, hne2, hnone2, hv0, hlt⟩
            cases hvs
            have hM0 : listMax (versions.map Prod.fst) ≠ 0 := by omega
            exact absurd (by simp [optTruthy, hM0, hv0, hlt]) hc

theorem resolveDefinition_cases {α : Type}
    (messages : List (String × List (Nat × CompiledDef α))) (name : String) (code : Nat)
    (dv : VersionRequest) :
    (∃ r, resolveDefinition messages name code dv = Except.ok r) ∨
    resolveDefinition messages name code dv = Except.error (.notFound name code) ∨
    (∃ v, dv = VersionRequest.exact v ∧ v ≠ 0 ∧
      resolveDefinition messages name code dv = Except.error (.outdated name code v)) := by
  cases halg : alGet messages name with
  | none => right; left; simp [resolveDefinition, halg]
  | some versions =>
    cases dv with
    | wildcard =>
      by_cases hemp : versions.isEmpty
      · right; left
        simp [resolveDefinition, halg, hemp, optTruthy]
      · have hemp2 : versions.isEmpty = false := by simpa using hemp
        have hne : versions ≠ [] := by simpa using hemp
        have hkeys : versions.map Prod.fst ≠ [] := by simpa using hne
        have hmem := listMax_mem hkeys
        have hsome := alGet_isSome_of_mem_keys versions _ hmem
        cases hdef : alGet versions (listMax (versions.map Prod.fst)) with
        | none => rw [hdef] at hsome; simp at hsome
        | some d =>
          left
          simp only [resolveDefinition, halg, hemp2, Bool.false_eq_true, if_false, hdef]
          exact ⟨_, rfl⟩
    | exact v =>
      cases hdef : alGet versions v with
      | some d =>
        left
        simp only [resolveDefinition, halg, hdef]
        exact ⟨_, rfl⟩
      | none =>
        by_cases hemp : versions.isEmpty
        · right; left
          simp [resolveDefinition, halg, hemp, hdef, optTruthy]
        · have hemp2 : versions.isEmpty = false := by simpa using hemp
          simp only [resolveDefinition, halg, hemp2, Bool.false_eq_true, if_false, hdef,
            Option.getD_some]
          by_cases hc : (optTruthy (some (listMax (versions.map Prod.fst)))
              && optTruthy (some v) && decide (v < listMax (versions.map Prod.fst))) = true
          · right; right
            have hv0 : v ≠ 0 := by
              simp only [Bool.and_eq_true, optTruthy, bne_iff_ne, ne_eq,
                decide_eq_true_eq] at hc
              exact hc.1.2
            exact ⟨v, rfl, hv0, by rw [if_pos hc]⟩
          · right; left
            rw [if_neg hc]

/-- C8: `parse` fails with the Deprecated (read) error exactly when the
resolved definition's `readable` flag is false, and `write` fails with the
Deprecated (write) error exactly when its `writeable` flag is false; in each
failure case no decoded object or byte sequence is produced (the error carries
no result and no new state). -/
theorem c8_deprecation_gating {α : Type} (st : TeraState α) (res : Resolved α)
    (buffer : List Nat) (data : α) :
    (parse st res buffer = Except.error (.deprecatedRead res.name res.code res.version) ↔
      res.definition.readable = false) ∧
    (write st res data = Except.error (.deprecatedWrite res.name res.code res.version) ↔
      res.definition.writeable = false) := by
  constructor
  · by_cases h : res.definition.readable = false
    · simp [parse, h]
    · simp only [parse, if_neg h]
      cases hv : st.readViews[buffer.length]? with
      | some viewLen => simp [h]
      | none => simp [h]
  · by_cases h : res.definition.writeable = false
    · simp [write, h]
    · simp [write, h]

/-- C8 witness: at a fully deprecated definition, `parse` and `write` fail
with the respective Deprecated errors. -/
theorem c8_deprecation_gating_witness :
    parse stBase resUnread [1] = Except.error (.deprecatedRead "A" 10 1) ∧
    write stBase resUnread 0 = Except.error (.deprecatedWrite "A" 10 1) := by
  have h := c8_deprecation_gating stBase resUnread [1] 0
  exact ⟨h.1.mpr rfl, h.2.mpr rfl⟩

/-- C1 counterexample: the deprecation entry `M.1 ↦ {min: 5, max: 10}` with
engine major patch version 3 — strictly outside `[5, 10]` — still yields
`writeable = true` (the source combines the two bound tests with `&&`, which
can never hold when both bounds are present and `min ≤ max`), contradicting
the claim that strictly-outside implies `writeable = false`. -/
theorem c1_strict_outside_counterexample :
    stC1.deprecationData "M" 1 = some ⟨some 5, some 10, true⟩ ∧
    stC1.majorPatchVersion = 3 ∧ (3 : Nat) < 5 ∧
    (assignDeprecationFlags stC1 "M" 1 wDef).writeable = true ∧
    (assignDeprecationFlags stC1 "M" 1 wDef).readable = true :=
  ⟨rfl, rfl, by omega, rfl, rfl⟩

/-- C1 (amended): a registered definition gets `writeable = false` (and
`readable = entry.readable`) exactly when a deprecation entry exists for
`(name, version)` and BOTH `min` is absent/zero or greater than the engine's
major patch version AND `max` is absent/zero or less than it; in every other
case both flags are set to true. -/
theorem c1_deprecation_flags_amended {α : Type} (st : TeraState α) (name : String)
    (version : Nat) (d : CompiledDef α) :
    ((assignDeprecationFlags st name version d).writeable = false ↔
      ∃ e, st.deprecationData name version = some e ∧
        (∀ m, e.min = some m → m ≠ 0 → st.majorPatchVersion < m) ∧
        (∀ m, e.max = some m → m ≠ 0 → m < st.majorPatchVersion)) ∧
    (∀ e, st.deprecationData name version = some e →
      (assignDeprecationFlags st name version d).writeable = false →
      (assignDeprecationFlags st name version d).readable = e.readable) ∧
    ((assignDeprecationFlags st name version d).writeable = true →
      (assignDeprecationFlags st name version d).readable = true) := by
  cases hdep : st.deprecationData name version with
  | none => simp [assignDeprecationFlags, hdep]
  | some e =>
    by_cases hc : ((!optTruthy e.min || decide (e.min.getD 0 > st.majorPatchVersion))
        && (!optTruthy e.max || decide (e.max.getD 0 < st.majorPatchVersion))) = true
    · have hbounds := Bool.and_eq_true_iff.mp hc
      simp only [assignDeprecationFlags, hdep, if_pos hc]
      refine ⟨?_, ?_, ?_⟩
      · exact ⟨fun _ => ⟨e, rfl, (optLowerBound_iff e.min st.majorPatchVersion).mp hbounds.1,
          (optUpperBound_iff e.max st.majorPatchVersion).mp hbounds.2⟩, fun _ => trivial⟩
      · intro e2 he2 _
        cases he2
        rfl
      · intro h
        exact absurd h (by simp)
    · simp only [assignDeprecationFlags, hdep, if_neg hc]
      refine ⟨?_, ?_, ?_⟩
      · constructor
        · intro h; exact absurd h (by simp)
        · rintro ⟨e2, he2, hmin, hmax⟩
          cases he2
          exact absurd (Bool.and_eq_true_iff.mpr
            ⟨(optLowerBound_iff e.min st.majorPatchVersion).mpr hmin,
             (optUpperBound_iff e.max st.majorPatchVersion).mpr hmax⟩) hc
      · intro e2 _ h
        exact absurd h (by simp)
      · intro _
        trivial

/-- C1 amended-claim witness: with entry `M.1 ↦ {min: 5}` (no max) and major
patch version 3 the definition is deprecated: `writeable = false` and
`readable` equals the entry's `readable` field. -/
theorem c1_deprecation_flags_amended_witness :
    (assignDeprecationFlags stC1b "M" 1 wDef).writeable = false ∧
    (assignDeprecationFlags stC1b "M" 1 wDef).readable = true := by
  have h := c1_deprecation_flags_amended stC1b "M" 1 wDef
  have hw : (assignDeprecationFlags stC1b "M" 1 wDef).writeable = false := by
    refine h.1.mpr ⟨⟨some 5, none, true⟩, rfl, ?_, ?_⟩
    · intro m hm _; cases hm; decide
    · intro m hm; cases hm
  exact ⟨hw, h.2.1 ⟨some 5, none, true⟩ rfl hw⟩

/-- C3 counterexample: with only version 5 of `A` registered, requesting the
absent concrete version 0 (which is strictly below the latest version 5)
fails with NotFound, not with the Outdated error the claim requires —
`version` is 0 and therefore falsy in the guard
`latest_version && version && version < latest_version`. -/
theorem c3_version_zero_counterexample :
    resolveIdentifier stC3 (.byName "A") (.exact 0) = Except.error (.notFound "A" 10) ∧
    resolveIdentifier stC3 (.byName "A") (.exact 0)
      ≠ Except.error (.outdated "A" 10 0) ∧
    lookupDefinition stC3 "A" 0 = none ∧
    (alGet stC3.messages "A").map (fun versions => listMax (versions.map Prod.fst))
      = some 5 ∧
    (0 : Nat) < 5 :=
  ⟨rfl, by
    intro h
    rw [show resolveIdentifier stC3 (.byName "A") (.exact 0)
        = Except.error (.notFound "A" 10) from rfl] at h
    simp at h, rfl, rfl, by omega⟩

/-- C3 (amended): with the name mapped to `code`, requesting concrete version
`v` fails with Outdated exactly when a nonempty versions table exists, `v` is
absent from it, `v` is nonzero, and `v` is below the maximum registered
version; requesting version 0 never yields Outdated (it falls through to
NotFound), the wildcard never yields Outdated, and every resolution either
succeeds, fails with NotFound, or fails with Outdated as above. -/
theorem c3_outdated_classification_amended {α : Type} (st : TeraState α) (name : String)
    (code : Nat) (hmap : st.protocolMap.byName name = some code) :
    (∀ v, resolveIdentifier st (.byName name) (.exact v)
        = Except.error (.outdated name code v) ↔
      ∃ versions, alGet st.messages name = some versions ∧ versions ≠ [] ∧
        alGet versions v = none ∧ v ≠ 0 ∧ v < listMax (versions.map Prod.fst)) ∧
    (∀ r, resolveIdentifier st (.byName name) (.exact 0)
        ≠ Except.error (.outdated name code r)) ∧
    (∀ r, resolveIdentifier st (.byName name) VersionRequest.wildcard
        ≠ Except.error (.outdated name code r)) ∧
    (∀ dv, (∃ r, resolveIdentifier st (.byName name) dv = Except.ok r) ∨
      resolveIdentifier st (.byName name) dv = Except.error (.notFound name code) ∨
      (∃ v, dv = VersionRequest.exact v ∧ v ≠ 0 ∧
        resolveIdentifier st (.byName name) dv = Except.error (.outdated name code v))) := by
  simp only [resolveIdentifier, hmap]
  refine ⟨?_, ?_, ?_, ?_⟩
  · intro v
    exact resolveDefinition_exact_outdated st.messages name code v
  · intro r h
    rcases resolveDefinition_cases st.messages name code (.exact 0) with ⟨r', hr⟩ | hr | hr
    · rw [h] at hr; cases hr
    · rw [h] at hr; cases hr
    · rcases hr with ⟨v, hv, hv0, _⟩
      cases hv
      exact hv0 rfl
  · intro r h
    rcases resolveDefinition_cases st.messages name code .wildcard with ⟨r', hr⟩ | hr | hr
    · rw [h] at hr; cases hr
    · rw [h] at hr; cases hr
    · rcases hr with ⟨v, hv, _, _⟩
      cases hv
  · intro dv
    exact resolveDefinition_cases st.messages name code dv

/-- C3 amended-claim witness: instantiation at the concrete registry holding
only `A.5`: requesting version 2 yields Outdated, version 0 never does, and
the classification iff holds there. -/
theorem c3_outdated_classification_amended_witness :
    resolveIdentifier stC3 (.byName "A") (.exact 2) = Except.error (.outdated "A" 10 2) ∧
    (∀ r, resolveIdentifier stC3 (.byName "A") (.exact 0)
      ≠ Except.error (.outdated "A" 10 r)) := by
  have h := c3_outdated_classification_amended stC3 "A" 10 rfl
  constructor
  · refine (h.1 2).mpr ⟨[(5, wDef)], rfl, by simp, rfl, by omega, by
      show (2 : Nat) < listMax [5]
      norm_num [listMax]⟩
  · exact h.2.1

/-- C4: `addDefinition` obeys the overwrite rule — with `overwrite = true` a
registration for `(name, version)` always replaces any existing entry (storing
the flag-assigned definition); with `overwrite = false` it registers only when
no entry exists, so a second registration without overwrite leaves the first
definition unchanged; and the loaders' shared registration path passes
`overwrite = (platform tag present)`. -/
theorem c4_overwrite_rule {α σ : Type} (compileF : σ → Option (CompiledDef α)) :
    (∀ (st : TeraState α) (name : String) (version : Nat) (d : CompiledDef α),
      lookupDefinition (addDefinition compileF st name version (.compiled d) true) name version
        = some (assignDeprecationFlags st name version d)) ∧
    (∀ (st : TeraState α) (name : String) (version : Nat) (d d0 : CompiledDef α),
      lookupDefinition st name version = some d0 →
      lookupDefinition (addDefinition compileF st name version (.compiled d) false) name version
        = some d0) ∧
    (∀ (st : TeraState α) (name : String) (version : Nat) (d : CompiledDef α),
      lookupDefinition st name version = none →
      lookupDefinition (addDefinition compileF st name version (.compiled d) false) name version
        = some (assignDeprecationFlags st name version d)) ∧
    (∀ (τ : Type) (jsF defF : String → τ → Option (DefInput α σ)) (st : TeraState α)
      (pn : ParsedName) (file : String × τ) (defn : DefInput α σ),
      (if pn.type == FileKind.jsFile then jsF file.1 file.2 else defF file.1 file.2)
        = some defn →
      (pn.platform.isNone || pn.platform == some st.platform) = true →
      registerParsedDefinition compileF jsF defF st pn file
        = addDefinition compileF st pn.name pn.version defn pn.platform.isSome) := by
  refine ⟨?_, ?_, ?_, ?_⟩
  · intro st name version d
    cases hm : alGet st.messages name with
    | none =>
      simp [addDefinition, lookupDefinition, hm, alGet_alSet_self]
    | some versions0 =>
      simp [addDefinition, lookupDefinition, hm, alGet_alSet_self]
  · intro st name version d d0 h
    simp only [lookupDefinition] at h
    cases hm : alGet st.messages name with
    | none => rw [hm] at h; cases h
    | some versions0 =>
      rw [hm] at h
      simp only [Option.some_bind] at h
      simp [addDefinition, lookupDefinition, hm, h]
  · intro st name version d h
    simp only [lookupDefinition] at h
    cases hm : alGet st.messages name with
    | none =>
      simp [addDefinition, lookupDefinition, hm, alGet_alSet_self, alGet]
    | some versions0 =>
      rw [hm] at h
      simp only [Option.some_bind] at h
      simp [addDefinition, lookupDefinition, hm, h, alGet_alSet_self]
  · intro τ jsF defF st pn file defn hload hplat
    simp only [registerParsedDefinition, hload, hplat, if_true]

/-- C4 witness: at a concrete registry, an overwrite registration stores the
flagged definition; registering `A.1` twice without overwrite leaves the first
definition in place. -/
theorem c4_overwrite_rule_witness :
    lookupDefinition (addDefinition compileW stBase "A" 1 (.compiled wDef) true) "A" 1
      = some (assignDeprecationFlags stBase "A" 1 wDef) ∧
    lookupDefinition
      (addDefinition compileW (addDefinition compileW stBase "A" 1 (.compiled wDef) false)
        "A" 1 (.compiled wDef2) false) "A" 1
      = some (assignDeprecationFlags stBase "A" 1 wDef) := by
  have h := c4_overwrite_rule compileW
  refine ⟨h.1 stBase "A" 1 wDef, ?_⟩
  have h1 : lookupDefinition (addDefinition compileW stBase "A" 1 (.compiled wDef) false) "A" 1
      = some (assignDeprecationFlags stBase "A" 1 wDef) :=
    h.2.2.1 stBase "A" 1 wDef rfl
  exact h.2.1 _ "A" 1 wDef2 _ h1

/-- C7: for a name mapped to a code and holding a nonempty versions table,
wildcard resolution succeeds and returns the definition stored at the
numerically maximum version key, with both `version` and `latest_version`
equal to that maximum; the maximum is computed from the registry passed in at
call time (the function reads no cache). -/
theorem c7_resolve_latest {α : Type} (st : TeraState α) (name : String) (code : Nat)
    (versions : List (Nat × CompiledDef α))
    (hmap : st.protocolMap.byName name = some code)
    (hver : alGet st.messages name = some versions)
    (hne : versions ≠ []) :
    ∃ d, alGet versions (listMax (versions.map Prod.fst)) = some d ∧
      resolveIdentifier st (.byName name) .wildcard =
        Except.ok ⟨name, code, listMax (versions.map Prod.fst),
          listMax (versions.map Prod.fst), d⟩ := by
  have hemp2 : versions.isEmpty = false := by simpa using hne
  have hkeys : versions.map Prod.fst ≠ [] := by simpa using hne
  have hmem := listMax_mem hkeys
  have hsome := alGet_isSome_of_mem_keys versions _ hmem
  cases hdef : alGet versions (listMax (versions.map Prod.fst)) with
  | none => rw [hdef] at hsome; simp at hsome
  | some d =>
    refine ⟨d, rfl, ?_⟩
    simp [resolveIdentifier, hmap, resolveDefinition, hver, hemp2, hdef]

/-- C7 witness: with only `A.5` registered, wildcard resolution returns the
definition at version 5 with `version = latest_version = 5`. -/
theorem c7_resolve_latest_witness :
    ∃ d, alGet [(5, wDef)] (listMax ([(5, wDef)].map Prod.fst)) = some d ∧
      resolveIdentifier stC3 (.byName "A") .wildcard =
        Except.ok ⟨"A", 10, listMax ([(5, wDef)].map Prod.fst),
          listMax ([(5, wDef)].map Prod.fst), d⟩ :=
  c7_resolve_latest stC3 "A" 10 [(5, wDef)] rfl rfl (by simp)

theorem length_setUint16LE (buf : List Nat) (off v : Nat) :
    (setUint16LE buf off v).length = buf.length := by
  simp [setUint16LE]

theorem getElem?_setUint16LE_lo (buf : List Nat) (off v : Nat) (h : off + 1 < buf.length) :
    (setUint16LE buf off v)[off]? = some (v % 256) := by
  unfold setUint16LE
  rw [List.getElem?_set_ne (by omega)]
  exact List.getElem?_set_eq_of_lt _ (by omega)

theorem getElem?_setUint16LE_hi (buf : List Nat) (off v : Nat) (h : off + 1 < buf.length) :
    (setUint16LE buf off v)[off + 1]? = some (v / 256 % 256) := by
  unfold setUint16LE
  exact List.getElem?_set_eq_of_lt _ (by simp [List.length_set]; omega)

theorem getElem?_setUint16LE_other (buf : List Nat) (off v i : Nat)
    (h1 : i ≠ off) (h2 : i ≠ off + 1) :
    (setUint16LE buf off v)[i]? = buf[i]? := by
  unfold setUint16LE
  rw [List.getElem?_set_ne (by omega), List.getElem?_set_ne (by omega)]

theorem drop_setUint16LE (buf : List Nat) (off v n : Nat) (h : off + 1 < n) :
    (setUint16LE buf off v).drop n = buf.drop n := by
  unfold setUint16LE
  rw [List.drop_set_of_lt _ _ (by omega), List.drop_set_of_lt _ _ (by omega)]

theorem bufCopy_take (src dst : List Nat) (h : src.length ≤ dst.length) :
    (bufCopy src dst).take src.length = src := by
  unfold bufCopy
  rw [List.take_of_length_le h]
  exact List.take_left src _

theorem parse_ok {α : Type} (st : TeraState α) (res : Resolved α) (buffer : List Nat)
    (hr : res.definition.readable = true)
    (hviews : st.readViews = List.range 65537) (hrb : st.readBuffer.length = 65536)
    (hlen : buffer.length ≤ 65536) :
    parse st res buffer = Except.ok (res.definition.reader buffer,
      { st with readBuffer := bufCopy buffer st.readBuffer }) := by
  simp only [parse]
  rw [if_neg (by simp [hr])]
  rw [hviews, List.getElem?_range (by omega)]
  dsimp only
  rw [bufCopy_take buffer st.readBuffer (by omega)]

/-- C5: a successful `write` returns the pair of a detached byte sequence and
the post-state whose scratch region starts with the little-endian 16-bit total
length at offset 0 and the little-endian 16-bit opcode at offset 2 (each value
reduced modulo 2^16 as `setUint16` does); the result is exactly bytes
`[0, length)` of the scratch region, has length `length` (the writer's end
offset), and carries the writer's payload unchanged from offset 4 on. -/
theorem c5_write_header {α : Type} (st : TeraState α) (res : Resolved α) (data : α)
    (len : Nat) (buf : List Nat)
    (hw : res.definition.writeable = true)
    (heq : res.definition.writer st.writeBuffer data = (len, buf))
    (hbuf : buf.length = 65536)
    (h4 : 4 ≤ len) (hle : len ≤ 65536) :
    ∃ result st2, write st res data = Except.ok (result, st2) ∧
      st2.writeBuffer = setUint16LE (setUint16LE buf 0 len) 2 res.code ∧
      result = st2.writeBuffer.take len ∧
      result.length = len ∧
      result[0]? = some (len % 256) ∧
      result[1]? = some (len / 256 % 256) ∧
      result[2]? = some (res.code % 256) ∧
      result[3]? = some (res.code / 256 % 256) ∧
      (∀ i, 4 ≤ i → i < len → result[i]? = buf[i]?) := by
  have hYlen : (setUint16LE buf 0 len).length = 65536 := by
    rw [length_setUint16LE, hbuf]
  have hXlen : (setUint16LE (setUint16LE buf 0 len) 2 res.code).length = 65536 := by
    rw [length_setUint16LE, hYlen]
  have hrun : write st res data = Except.ok
      ((setUint16LE (setUint16LE buf 0 len) 2 res.code).take len,
        { st with writeBuffer := setUint16LE (setUint16LE buf 0 len) 2 res.code }) := by
    simp only [write, heq]
    rw [if_neg (by simp [hw])]
  refine ⟨_, _, hrun, rfl, rfl, ?_, ?_, ?_, ?_, ?_, ?_⟩
  · rw [List.length_take, hXlen]; omega
  · rw [List.getElem?_take_of_lt (by omega),
      getElem?_setUint16LE_other _ _ _ _ (by omega) (by omega),
      getElem?_setUint16LE_lo _ _ _ (by omega)]
  · rw [List.getElem?_take_of_lt (by omega),
      getElem?_setUint16LE_other _ _ _ _ (by omega) (by omega)]
    have := getElem?_setUint16LE_hi buf 0 len (by omega)
    simpa using this
  · rw [List.getElem?_take_of_lt (by omega),
      getElem?_setUint16LE_lo _ _ _ (by omega)]
  · rw [List.getElem?_take_of_lt (by omega)]
    have := getElem?_setUint16LE_hi (setUint16LE buf 0 len) 2 res.code (by omega)
    simpa using this
  · intro i hi4 hilen
    rw [List.getElem?_take_of_lt (by omega),
      getElem?_setUint16LE_other _ _ _ _ (by omega) (by omega),
      getElem?_setUint16LE_other _ _ _ _ (by omega) (by omega)]

/-- C5 witness: a writer that stores one payload byte and reports end offset 5
yields a 5-byte result whose header encodes length 5 and opcode 10. -/
theorem c5_write_header_witness :
    ∃ result st2, write stBase resW 9 = Except.ok (result, st2) ∧
      st2.writeBuffer = setUint16LE (setUint16LE (bufZ.set 4 9) 0 5) 2 resW.code ∧
      result = st2.writeBuffer.take 5 ∧
      result.length = 5 ∧
      result[0]? = some (5 % 256) ∧
      result[1]? = some (5 / 256 % 256) ∧
      result[2]? = some (resW.code % 256) ∧
      result[3]? = some (resW.code / 256 % 256) ∧
      (∀ i, 4 ≤ i → i < 5 → result[i]? = (bufZ.set 4 9)[i]?) :=
  c5_write_header stBase resW 9 5 (bufZ.set 4 9) rfl rfl
    (by simp only [List.length_set, bufZ, List.length_replicate]) (by omega) (by omega)

/-- C9: when the resolved definition's reader inverts its writer's payload,
parsing the payload region (bytes from offset 4 on) of the buffer returned by
`write` yields the original value. -/
theorem c9_roundtrip {α : Type} (st : TeraState α) (res : Resolved α) (X : α)
    (len : Nat) (buf : List Nat)
    (hr : res.definition.readable = true) (hw : res.definition.writeable = true)
    (hrb : st.readBuffer.length = 65536)
    (hviews : st.readViews = List.range 65537)
    (heq : res.definition.writer st.writeBuffer X = (len, buf))
    (hbuf : buf.length = 65536) (h4 : 4 ≤ len) (hle : len ≤ 65536)
    (hinv : res.definition.reader ((buf.take len).drop 4) = X) :
    ∃ wire st1 st2, write st res X = Except.ok (wire, st1) ∧
      parse st1 res (wire.drop 4) = Except.ok (X, st2) := by
  have hwrite : write st res X = Except.ok
      ((setUint16LE (setUint16LE buf 0 len) 2 res.code).take len,
        { st with writeBuffer := setUint16LE (setUint16LE buf 0 len) 2 res.code }) := by
    simp only [write, heq]
    rw [if_neg (by simp [hw])]
  set X2 := setUint16LE (setUint16LE buf 0 len) 2 res.code with hX2
  set wire := X2.take len with hwire
  have hX2len : X2.length = 65536 := by
    rw [hX2, length_setUint16LE, length_setUint16LE, hbuf]
  have hwirelen : wire.length = len := by
    rw [hwire, List.length_take]; omega
  have hdlen : (wire.drop 4).length = len - 4 := by
    rw [List.length_drop, hwirelen]
  have hparse := parse_ok { st with writeBuffer := X2 } res (wire.drop 4) hr hviews hrb
    (by omega)
  have hpayload : wire.drop 4 = (buf.take len).drop 4 := by
    rw [hwire, hX2, List.drop_take, List.drop_take,
      drop_setUint16LE _ _ _ _ (by omega), drop_setUint16LE _ _ _ _ (by omega)]
  refine ⟨wire, { st with writeBuffer := X2 }, ?_, hwrite, ?_⟩
  · exact { st with writeBuffer := X2, readBuffer := bufCopy (wire.drop 4) st.readBuffer }
  · rw [hparse, hpayload, hinv]

/-- C9 witness: a concrete writer/reader inverse pair (store one byte at
offset 4, read the first view byte) round-trips the value 9. -/
theorem c9_roundtrip_witness :
    ∃ wire st1 st2, write stBase resW 9 = Except.ok (wire, st1) ∧
      parse st1 resW (wire.drop 4) = Except.ok (9, st2) := by
  refine c9_roundtrip stBase resW 9 5 (bufZ.set 4 9) rfl rfl ?_ ?_ rfl ?_ ?_ ?_ ?_
  · show bufZ.length = 65536
    simp only [bufZ, List.length_replicate]
  · simp only [stBase]
  · simp only [List.length_set, bufZ, List.length_replicate]
  · omega
  · omega
  · rfl

/-- C10: a constructed engine precomputes read views exactly for lengths 0
through 65536 inclusive; for every buffer in that range `parse` hands the
reader a view of exactly `buffer.length` bytes holding the buffer's contents
(copied into the 65536-byte read scratch region), while for any longer buffer
the view lookup yields nothing and the reader is never reached — callers must
keep `buffer.length ≤ 65536`. -/
theorem c10_read_view_bounds {α : Type} (region : String) (mj mn : Nat) (pm : ProtocolMap)
    (plat : String) (g1 g2 : Nat → Nat) (st : TeraState α)
    (hmk : mkTeraProtocol α region mj mn pm plat g1 g2 = some st) :
    (∀ len, st.readViews[len]? = if len ≤ 65536 then some len else none) ∧
    st.readBuffer.length = 65536 ∧
    (∀ (res : Resolved α) (buffer : List Nat), res.definition.readable = true →
      buffer.length ≤ 65536 →
      parse st res buffer = Except.ok (res.definition.reader buffer,
        { st with readBuffer := bufCopy buffer st.readBuffer })) ∧
    (∀ (res : Resolved α) (buffer : List Nat), res.definition.readable = true →
      65536 < buffer.length →
      parse st res buffer = Except.error (.noReadView buffer.length)) := by
  obtain ⟨hviews, hrb⟩ : st.readViews = List.range 65537 ∧ st.readBuffer.length = 65536 := by
    simp only [mkTeraProtocol] at hmk
    split at hmk
    · injection hmk with h
      subst h
      exact ⟨by simp, by simp⟩
    · cases hmk
  have hlookup : ∀ len, st.readViews[len]? = if len ≤ 65536 then some len else none := by
    intro len
    rw [hviews]
    rcases Nat.lt_or_ge len 65537 with h | h
    · rw [List.getElem?_range h, if_pos (by omega)]
    · rw [List.getElem?_eq_none (by simpa using h), if_neg (by omega)]
  refine ⟨hlookup, hrb, ?_, ?_⟩
  · intro res buffer hr hlen
    exact parse_ok st res buffer hr hviews hrb hlen
  · intro res buffer hr hlen
    simp only [parse]
    rw [if_neg (by simp [hr])]
    rw [hviews, List.getElem?_eq_none (by simpa using hlen)]

/-- C10 witness: the concretely constructed engine has a view for length
65536, none for length 65537, and parses a 1-byte buffer by handing the reader
exactly that buffer. -/
theorem c10_read_view_bounds_witness :
    stMk.readViews[65537]? = none ∧
    stMk.readViews[65536]? = some 65536 ∧
    parse stMk resW [7] = Except.ok (resW.definition.reader [7],
      { stMk with readBuffer := bufCopy [7] stMk.readBuffer }) := by
  have hmk : mkTeraProtocol Nat "eu" 3 1 pm0 "pc" (fun _ => 0) (fun _ => 0) = some stMk := by
    unfold mkTeraProtocol stMk
    rw [if_pos (by decide)]
  have h := c10_read_view_bounds "eu" 3 1 pm0 "pc" (fun _ => 0) (fun _ => 0) stMk hmk
  refine ⟨?_, ?_, ?_⟩
  · simpa using h.1 65537
  · simpa using h.1 65536
  · exact h.2.2.1 resW [7] rfl (by simp)

theorem addDefinition_lowest {α σ : Type} (compileF : σ → Option (CompiledDef α))
    (st : TeraState α) (name : String) (version : Nat) (di : DefInput α σ) (ow : Bool) :
    (addDefinition compileF st name version di ow).lowestDefaultDefVersions
      = st.lowestDefaultDefVersions := by
  simp only [addDefinition]
  split
  · rfl
  · split <;> split <;> rfl

theorem registerParsedDefinition_lowest {α σ τ : Type}
    (compileF : σ → Option (CompiledDef α)) (jsF defF : String → τ → Option (DefInput α σ))
    (s : TeraState α) (pn : ParsedName) (f : String × τ) :
    (registerParsedDefinition compileF jsF defF s pn f).lowestDefaultDefVersions
      = s.lowestDefaultDefVersions := by
  simp only [registerParsedDefinition]
  cases hd : (if pn.type == FileKind.jsFile then jsF f.1 f.2 else defF f.1 f.2) with
  | none => rfl
  | some defn =>
    dsimp only
    by_cases hp : (pn.platform.isNone || pn.platform == some s.platform) = true
    · rw [if_pos hp]
      exact addDefinition_lowest compileF s pn.name pn.version defn pn.platform.isSome
    · rw [if_neg hp]

theorem loadBundleEntries_lowest {α σ τ : Type} (compileF : σ → Option (CompiledDef α))
    (rF dF : String → τ → Option (DefInput α σ)) :
    ∀ (l : List (String × τ)) (s s' : TeraState α),
      loadBundleEntries compileF rF dF s l = Except.ok s' →
      s'.lowestDefaultDefVersions = s.lowestDefaultDefVersions := by
  intro l
  induction l with
  | nil =>
    intro s s' h
    injection h with h
    subst h
    rfl
  | cons p tl ih =>
    intro s s' h
    cases hpp : parseDefinitionFilename p.1 with
    | none =>
      rw [loadBundleEntries, hpp] at h
      cases h
    | some pn =>
      rw [loadBundleEntries, hpp] at h
      rw [ih _ _ h, registerParsedDefinition_lowest]

theorem loadBundleEntries_ne_error {α σ τ : Type} (compileF : σ → Option (CompiledDef α))
    (rF dF : String → τ → Option (DefInput α σ)) :
    ∀ (l : List (String × τ)), (∀ p ∈ l, (parseDefinitionFilename p.1).isSome) →
      ∀ (s : TeraState α) (e : LoadError),
        loadBundleEntries compileF rF dF s l ≠ Except.error e := by
  intro l
  induction l with
  | nil => intro _ s e h; cases h
  | cons p tl ih =>
    intro hall s e h
    cases hpp : parseDefinitionFilename p.1 with
    | none =>
      have := hall p (by simp)
      rw [hpp] at this
      cases this
    | some pn =>
      rw [loadBundleEntries, hpp] at h
      exact ih (fun q hq => hall q (List.mem_cons_of_mem _ hq)) _ _ h

theorem computeLowest_ok_elim :
    ∀ (l : List (Option ParsedName)) (acc r : String → Option Nat),
      computeLowest l acc = Except.ok r →
      r = (l.filterMap id).foldl lowestStep acc := by
  intro l
  induction l with
  | nil =>
    intro acc r h
    injection h with h
    subst h
    rfl
  | cons x tl ih =>
    intro acc r h
    cases x with
    | none => cases h
    | some d =>
      rw [computeLowest] at h
      rw [ih _ _ h]
      simp

theorem computeLowest_ne_error :
    ∀ (l : List (Option ParsedName)), (∀ x ∈ l, x.isSome) →
      ∀ (acc : String → Option Nat) (e : LoadError),
        computeLowest l acc ≠ Except.error e := by
  intro l
  induction l with
  | nil => intro _ acc e h; cases h
  | cons x tl ih =>
    intro hall acc e h
    cases x with
    | none =>
      have := hall none (by simp)
      cases this
    | some d =>
      rw [computeLowest] at h
      exact ih (fun y hy => hall y (List.mem_cons_of_mem _ hy)) _ _ h

theorem computeLowest_error_of_mem_none :
    ∀ (l : List (Option ParsedName)) (acc : String → Option Nat), none ∈ l →
      computeLowest l acc = Except.error LoadError.nullParsedName := by
  intro l
  induction l with
  | nil => intro acc h; simp at h
  | cons x tl ih =>
    intro acc h
    cases x with
    | none => rfl
    | some d =>
      rcases List.mem_cons.mp h with h | h
      · cases h
      · rw [computeLowest]
        exact ih _ h

theorem lowestStep_at_ne (acc : String → Option Nat) (d : ParsedName) (n : String)
    (h : d.name ≠ n) : lowestStep acc d n = acc n := by
  have hb : (n == d.name) = false := by simpa using (Ne.symm h)
  unfold lowestStep
  cases acc d.name <;> simp [ite_apply, apply_ite, hb, Ne.symm h]

theorem lowestStep_at_eq (acc : String → Option Nat) (d : ParsedName)
    (h : ∀ n, n = d.name → True) :
    ∃ x, lowestStep acc d d.name = some x ∧
      (x = d.version ∨ ∃ v, acc d.name = some v ∧ x = min v d.version) := by
  have hb : (d.name == d.name) = true := beq_self_eq_true _
  unfold lowestStep
  cases hacc : acc d.name with
  | none => exact ⟨d.version, by simp [hb], Or.inl rfl⟩
  | some v =>
    by_cases hv : (v != 0) = true
    · exact ⟨min v d.version, by simp [hv, hb], Or.inr ⟨v, rfl, rfl⟩⟩
    · have hv2 : (v != 0) = false := by simpa using hv
      exact ⟨d.version, by simp [hv2, hb], Or.inl rfl⟩

theorem versionsOf_cons (d : ParsedName) (tl : List ParsedName) (n : String) :
    versionsOf (d :: tl) n =
      if d.name = n then d.version :: versionsOf tl n else versionsOf tl n := by
  by_cases h : d.name = n
  · simp [versionsOf, List.filterMap_cons, h]
  · have h2 : (d.name == n) = false := by simpa using h
    simp [versionsOf, List.filterMap_cons, h2, h]

theorem lowestFold_isSome :
    ∀ (l : List ParsedName) (acc : String → Option Nat) (n : String),
      (versionsOf l n ≠ [] ∨ (acc n).isSome) →
      ((l.foldl lowestStep acc) n).isSome := by
  intro l
  induction l with
  | nil =>
    intro acc n h
    rcases h with h | h
    · exact absurd rfl h
    · simpa using h
  | cons d tl ih =>
    intro acc n h
    simp only [List.foldl_cons]
    by_cases hd : d.name = n
    · apply ih
      right
      subst hd
      obtain ⟨x, hx, -⟩ := lowestStep_at_eq acc d (fun _ _ => trivial)
      simp [hx]
    · apply ih
      rcases h with h | h
      · left
        rw [versionsOf_cons, if_neg hd] at h
        exact h
      · right
        rwa [lowestStep_at_ne acc d n hd]

theorem lowestFold_some_mem :
    ∀ (l : List ParsedName) (acc : String → Option Nat) (n : String) (L : Nat),
      (l.foldl lowestStep acc) n = some L →
      L ∈ versionsOf l n ∨ acc n = some L := by
  intro l
  induction l with
  | nil =>
    intro acc n L h
    right
    simpa using h
  | cons d tl ih =>
    intro acc n L h
    simp only [List.foldl_cons] at h
    rcases ih (lowestStep acc d) n L h with hmem | hacc
    · left
      rw [versionsOf_cons]
      split
      · exact List.mem_cons_of_mem _ hmem
      · exact hmem
    · by_cases hd : d.name = n
      · subst hd
        obtain ⟨x, hx, hor⟩ := lowestStep_at_eq acc d (fun _ _ => trivial)
        rw [hacc] at hx
        injection hx with hx
        subst hx
        rcases hor with hor | ⟨v, hv, hor⟩
        · left
          rw [versionsOf_cons, if_pos rfl, hor]
          exact List.mem_cons_self _ _
        · rcases min_choice v d.version with hmin | hmin
          · right
            rw [hv, hor, hmin]
          · left
            rw [versionsOf_cons, if_pos rfl, hor, hmin]
            exact List.mem_cons_self _ _
      · right
        rwa [lowestStep_at_ne acc d n hd] at hacc

theorem loadDefaultBundle_ok_lowest {α σ τ : Type} (compileF : σ → Option (CompiledDef α))
    (rF dF : String → τ → Option (DefInput α σ)) (st st' : TeraState α) (data : Bundle τ)
    (h : loadDefaultBundle compileF rF dF st data = Except.ok st') :
    st'.lowestDefaultDefVersions =
      (data.protocol.filterMap (fun p => parseDefinitionFilename p.1)).foldl lowestStep
        (fun _ => none) := by
  simp only [loadDefaultBundle] at h
  split at h
  · cases h
  · rename_i lowest hcl
    split at h
    · cases h
    · rename_i st2 hlb
      injection h with h
      subst h
      show st2.lowestDefaultDefVersions = _
      rw [loadBundleEntries_lowest compileF rF dF _ _ _ hlb]
      show lowest = _
      rw [computeLowest_ok_elim _ _ _ hcl, List.filterMap_map]
      rfl

/-- C2 counterexample: a bundle whose sole entry has the malformed filename
`bad.txt` makes `loadDefaultBundle` throw (the `forEach` computing
`lowestDefaultDefVersions` dereferences `def.name` on the null parse result),
so the load aborts instead of skipping the entry. -/
theorem c2_malformed_bundle_counterexample :
    parseDefinitionFilename "bad.txt" = none ∧
    loadDefaultBundle compileW extW extW stBase bundleBad
      = Except.error LoadError.nullParsedName :=
  ⟨rfl, rfl⟩

/-- C2 (amended): per-definition failures in the custom loader (malformed
filename, stale version) and compile failures in `addDefinition` are skipped
without aborting, and `loadDefaultBundle` completes normally when every bundle
entry filename is well-formed; but a bundle entry with a malformed filename
raises a TypeError that aborts `loadDefaultBundle`. -/
theorem c2_loading_failure_handling_amended {α σ τ : Type}
    (compileF : σ → Option (CompiledDef α))
    (reqF defF : String → τ → Option (DefInput α σ)) :
    (∀ (st : TeraState α) (data : Bundle τ),
      (∀ p ∈ data.protocol, (parseDefinitionFilename p.1).isSome) →
      ∃ st', loadDefaultBundle compileF reqF defF st data = Except.ok st') ∧
    (∀ (st : TeraState α) (f : String) (src : τ) (rest : List (String × τ)),
      parseDefinitionFilename f = none →
      loadCustomStep compileF reqF defF st (f, src) = st ∧
      loadCustomDefinitions compileF reqF defF st ((f, src) :: rest)
        = loadCustomDefinitions compileF reqF defF st rest) ∧
    (∀ (st : TeraState α) (name : String) (version : Nat) (s : σ) (ow : Bool),
      compileF s = none →
      addDefinition compileF st name version (.structural s) ow = st) ∧
    (∀ (st : TeraState α) (data : Bundle τ),
      (∃ p ∈ data.protocol, parseDefinitionFilename p.1 = none) →
      loadDefaultBundle compileF reqF defF st data
        = Except.error LoadError.nullParsedName) := by
  refine ⟨?_, ?_, ?_, ?_⟩
  · intro st data h
    simp only [loadDefaultBundle]
    split
    · rename_i e hcl
      exact absurd hcl (computeLowest_ne_error _
        (fun x hx => by
          obtain ⟨p, hp, rfl⟩ := List.mem_map.mp hx
          exact h p hp) _ _)
    · split
      · rename_i hlb
        exact absurd hlb (loadBundleEntries_ne_error compileF reqF defF _ h _ _)
      · exact ⟨_, rfl⟩
  · intro st f src rest hf
    have hstep : loadCustomStep compileF reqF defF st (f, src) = st := by
      simp [loadCustomStep, hf]
    refine ⟨hstep, ?_⟩
    simp only [loadCustomDefinitions, List.foldl_cons, hstep]
  · intro st name version s ow hc
    simp [addDefinition, hc]
  · intro st data ⟨p, hp, hnone⟩
    have hmem : none ∈ data.protocol.map (fun q => parseDefinitionFilename q.1) := by
      rw [← hnone]
      exact List.mem_map_of_mem _ hp
    simp only [loadDefaultBundle]
    rw [computeLowest_error_of_mem_none _ _ hmem]

/-- C2 amended-claim witness: a well-formed one-entry bundle loads to success;
the malformed custom filename `bad.txt` is skipped leaving the state
unchanged; a failing compile drops the definition without aborting. -/
theorem c2_loading_failure_handling_amended_witness :
    (∃ st', loadDefaultBundle compileW extW extW stBase bundleGood = Except.ok st') ∧
    loadCustomStep compileW extW extW stBase ("bad.txt", 0) = stBase ∧
    addDefinition compileFail stBase "A" 1 (.structural 0) false = stBase := by
  have h := c2_loading_failure_handling_amended compileW extW extW
  have h2 := c2_loading_failure_handling_amended compileFail extW extW
  refine ⟨h.1 stBase bundleGood ?_, (h.2.1 stBase "bad.txt" 0 [] rfl).1,
    h2.2.2.1 stBase "A" 1 0 false rfl⟩
  intro p hp
  simp only [bundleGood, List.mem_singleton] at hp
  subst hp
  rfl

/-- C6: during `loadCustomDefinitions`, a file whose parsed version is
nonzero, whose name has bundled defaults, and whose version is below every
bundled version for that name (hence below the bundled minimum) is skipped —
the state is unchanged and nothing is registered; a file with version 0 is
never skipped by this staleness rule (including when the bundled minimum is
itself 0) and proceeds to normal registration. -/
theorem c6_custom_staleness {α σ τ : Type} (compileF : σ → Option (CompiledDef α))
    (reqF defF reqB defB : String → τ → Option (DefInput α σ))
    (st st1 : TeraState α) (data : Bundle τ)
    (hload : loadDefaultBundle compileF reqB defB st data = Except.ok st1) :
    (∀ (f : String) (src : τ) (pn : ParsedName) (rest : List (String × τ)),
      parseDefinitionFilename f = some pn → pn.version ≠ 0 →
      bundledVersions data pn.name ≠ [] →
      (∀ w ∈ bundledVersions data pn.name, pn.version < w) →
      loadCustomStep compileF reqF defF st1 (f, src) = st1 ∧
      loadCustomDefinitions compileF reqF defF st1 ((f, src) :: rest)
        = loadCustomDefinitions compileF reqF defF st1 rest) ∧
    (∀ (st2 : TeraState α) (f : String) (src : τ) (pn : ParsedName),
      parseDefinitionFilename f = some pn → pn.version = 0 →
      loadCustomStep compileF reqF defF st2 (f, src)
        = registerParsedDefinition compileF reqF defF st2 pn (f, src)) := by
  have hlowfield := loadDefaultBundle_ok_lowest compileF reqB defB st st1 data hload
  constructor
  · intro f src pn rest hf hv hbne hlt
    have hsome : ((data.protocol.filterMap (fun p => parseDefinitionFilename p.1)).foldl
        lowestStep (fun _ => none) pn.name).isSome :=
      lowestFold_isSome _ _ _ (Or.inl hbne)
    rw [← hlowfield] at hsome
    cases hL : st1.lowestDefaultDefVersions pn.name with
    | none => rw [hL] at hsome; cases hsome
    | some L =>
      have hmem : L ∈ bundledVersions data pn.name := by
        have hL2 := hL
        rw [hlowfield] at hL2
        rcases lowestFold_some_mem _ _ _ _ hL2 with hm | hm
        · exact hm
        · cases hm
      have hvL : pn.version < L := hlt L hmem
      have hstep : loadCustomStep compileF reqF defF st1 (f, src) = st1 := by
        simp only [loadCustomStep, hf]
        rw [if_pos]
        rw [hL]
        simp only [optTruthy, Option.getD_some, Bool.and_eq_true, bne_iff_ne, ne_eq,
          decide_eq_true_eq]
        exact ⟨⟨hv, by omega⟩, hvL⟩
      refine ⟨hstep, ?_⟩
      simp only [loadCustomDefinitions, List.foldl_cons, hstep]
  · intro st2 f src pn hf hv
    simp [loadCustomStep, hf, hv]

/-- C6 witness: with the bundle holding only `X.7`, the custom file `X.5.def`
is skipped (state unchanged), and a custom `X.0.def` is exempt from the
staleness rule and proceeds to registration. -/
theorem c6_custom_staleness_witness :
    ∃ st1, loadDefaultBundle compileW extW extW stBase bundleX = Except.ok st1 ∧
      loadCustomStep compileW extW extW st1 ("X.5.def", 0) = st1 ∧
      loadCustomStep compileW extW extW stBase ("X.0.def", 0)
        = registerParsedDefinition compileW extW extW stBase
            ⟨"X", 0, none, .defFile⟩ ("X.0.def", 0) := by
  refine ⟨_, rfl, ?_, ?_⟩
  · have h := c6_custom_staleness compileW extW extW extW extW stBase _ bundleX rfl
    exact (h.1 "X.5.def" 0 ⟨"X", 5, none, .defFile⟩ [] rfl (by decide) (by decide)
      (by decide)).1
  · have h := c6_custom_staleness compileW extW extW extW extW stBase _ bundleX rfl
    exact h.2 stBase "X.0.def" 0 ⟨"X", 0, none, .defFile⟩ rfl rfl
end TeraProto
